import Mathlib

/-!
Verification of the template-fmu-runner pipeline logic.

This development gives a shallow embedding of the algorithmic core of the
repository: the Test Generator (src/test-generator/main.py), the Validator
(src/validator/main.py), and the Family Resolver
(src/http-api-source/datalake_query.py, src/http-api-source/local_store.py).

Modelling conventions:
* Python numbers (int/float/bool) are modelled over ℚ; binary floating-point
  rounding is abstracted away (the verified properties are about ranges,
  maxima, comparisons and type tags, which are robust to that abstraction).
* Python dicts are modelled as association lists in insertion order; lookup
  returns the first binding (dicts have unique keys, so this is exact).
* Calls into the `random` module are modelled by explicit oracle parameters;
  the ranges the library guarantees (`uniform(a, b)` lands in [a, b],
  `choice([-1, 1])` is ±1, `sample(l, n)` is an n-element subsequence without
  replacement) appear as hypotheses of the theorems.
* Exceptions are modelled with `Option`: `Option.none` marks the raising path.
-/

/-! ## String utilities (substring search mirroring Python `in` / `rsplit` / `startswith`) -/

/-- Does the character list `s` start with `pat`? (Python `str.startswith`.) -/
def chrStartsWith : List Char → List Char → Bool
  | _, [] => true
  | [], _ :: _ => false
  | c :: cs, p :: ps => c == p && chrStartsWith cs ps

/-- The pattern `"_gen_"` used by the lineage key scheme, as a character list. -/
def genPat : List Char := ['_', 'g', 'e', 'n', '_']

/-- Index of the last occurrence of `genPat` in a character list, if any.
`rsplit("_gen_", 1)` splits at this index. -/
def genLastIdx : List Char → Option Nat
  | [] => Option.none
  | c :: cs =>
    match genLastIdx cs with
    | some i => some (i + 1)
    | Option.none => if chrStartsWith (c :: cs) genPat then some 0 else Option.none

/-- Python `"_gen_" in s`. -/
def hasGen (s : String) : Bool := (genLastIdx s.toList).isSome

/-- Python `s.rsplit("_gen_", 1)[0] if "_gen_" in s else s`: the part of `s`
before the last occurrence of `"_gen_"` (or `s` itself when absent). -/
def baseKey (s : String) : String :=
  match genLastIdx s.toList with
  | some i => String.mk (s.toList.take i)
  | Option.none => s

/-- Python `s.startswith(p)`. -/
def strStartsWith (s p : String) : Bool := chrStartsWith s.toList p.toList

/-- Lexicographic ≤ on character lists by code point (Python string comparison). -/
def chrLe : List Char → List Char → Bool
  | [], _ => true
  | _ :: _, [] => false
  | a :: as, b :: bs => if a == b then chrLe as bs else decide (a < b)

/-- Lexicographic ≤ on strings by code point (Python string comparison). -/
def strLe (a b : String) : Bool := chrLe a.toList b.toList

/-! ## Test Generator model (src/test-generator/main.py) -/

/-- A path to a numeric config field: either a top-level key, or a key inside
the nested `parameters` dict.  The source uses tuples `(None, k)` and
`('parameters', k)`. -/
inductive CfgPath where
  | top (k : String)
  | param (k : String)
deriving DecidableEq

/-- A Python value as it appears in a config dict.  `int`/`bool`/`float` are
the numeric cases of `isinstance(v, (int, float))` (Python counts `bool` as
`int`); `dict` covers nested mappings; `other` covers the remaining
non-numeric, non-dict values (strings, lists, `None`, ...), kept opaque. -/
inductive CVal where
  | int (n : ℤ)
  | bool (b : Bool)
  | float (q : ℚ)
  | dict (d : List (String × CVal))
  | other (tag : Nat)

/-- Python `isinstance(v, (int, float))` (true for `bool` as well). -/
def CVal.isNumeric : CVal → Bool
  | CVal.int _ => true
  | CVal.bool _ => true
  | CVal.float _ => true
  | _ => false

/-- Numeric content of a numeric value (`True = 1`, `False = 0`); `0` on the
non-numeric cases, which the callers never reach. -/
def CVal.toRat : CVal → ℚ
  | CVal.int n => (n : ℚ)
  | CVal.bool b => if b then 1 else 0
  | CVal.float q => q
  | _ => 0

/-- Python `isinstance(v, int)` (true for `bool`). -/
def CVal.isIntLike : CVal → Bool
  | CVal.int _ => true
  | CVal.bool _ => true
  | _ => false

/-- Python 3 `round` to the nearest integer, halves to even (banker's
rounding), composed with `int(...)`. -/
def pyRound (q : ℚ) : ℤ :=
  let f := ⌊q⌋
  let frac := q - (f : ℚ)
  if frac < 1 / 2 then f
  else if frac > 1 / 2 then f + 1
  else if 2 ∣ f then f else f + 1

/-- First binding of `k` in an association list (Python dict lookup). -/
def dictGet (d : List (String × CVal)) (k : String) : Option CVal :=
  (d.find? (fun p => p.1 == k)).map (fun p => p.2)

/-- Oracle for the `random` draws one call to `randomize_config` makes.
`k` stands for `random.randint(1, 3)`; `sample ps n` for
`random.sample(ps, n)`; `pctWide p` / `pctNarrow p` for the
`random.uniform(0.10, 0.30)` / `random.uniform(0.02, 0.20)` draw made while
mutating the field at `p`; `dir p` for `random.choice([-1, 1])` there. -/
structure Draws where
  k : Nat
  sample : List CfgPath → Nat → List CfgPath
  pctWide : CfgPath → ℚ
  pctNarrow : CfgPath → ℚ
  dir : CfgPath → ℤ

/-- Model of `randomize_value(value, use_wide_range)` (main.py lines 22-33),
with the random draws supplied by the oracle `d` at path `p`:
`new_value = value * (1 + direction * pct)`, returned as an `int` when the
input was `int`-like and as a `float` otherwise. -/
def randomize_value (d : Draws) (p : CfgPath) (value : CVal) (use_wide : Bool) : CVal :=
  let pct := if use_wide then d.pctWide p else d.pctNarrow p
  let newValue := value.toRat * (1 + (d.dir p : ℚ) * pct)
  if value.isIntLike then CVal.int (pyRound newValue) else CVal.float newValue

/-- Candidate paths inside `parameters` (main.py lines 56-59): the numeric
entries of the `parameters` sub-dict, when that entry exists and is a dict. -/
def paramPaths (config : List (String × CVal)) : List CfgPath :=
  match dictGet config "parameters" with
  | some (CVal.dict ps) =>
      ps.filterMap (fun pv => if pv.2.isNumeric then some (CfgPath.param pv.1) else Option.none)
  | _ => []

/-- Top-level candidate paths (main.py lines 60-62): numeric entries other
than `parameters` and `success_criteria`. -/
def topPaths (config : List (String × CVal)) : List CfgPath :=
  config.filterMap (fun kv =>
    if kv.1 ≠ "parameters" ∧ kv.1 ≠ "success_criteria" ∧ kv.2.isNumeric
    then some (CfgPath.top kv.1) else Option.none)

/-- The candidate paths collected by `randomize_config` (main.py lines 55-62):
numeric entries of the `parameters` sub-dict first, then numeric top-level
entries other than `parameters` and `success_criteria`. -/
def allNumericPaths (config : List (String × CVal)) : List CfgPath :=
  paramPaths config ++ topPaths config

/-- Body of the `parameters` sub-loop of `randomize_config` (main.py lines
75-80): a numeric parameter entry is mutated (wide iff its path is among the
chosen outliers), any other entry is passed through. -/
def mutateParam (d : Draws) (outliers : List CfgPath) (pv : String × CVal) :
    String × CVal :=
  if pv.2.isNumeric then
    (pv.1, randomize_value d (CfgPath.param pv.1) pv.2
             (outliers.contains (CfgPath.param pv.1)))
  else pv

/-- Body of the main loop of `randomize_config` (main.py lines 68-86):
`success_criteria` is kept unchanged, the `parameters` dict is mutated
entry-wise, a numeric top-level value is mutated, anything else is passed
through. -/
def mutateEntry (d : Draws) (outliers : List CfgPath) (kv : String × CVal) :
    String × CVal :=
  if kv.1 == "success_criteria" then kv
  else
    match kv.2 with
    | CVal.dict ps =>
      if kv.1 == "parameters" then
        (kv.1, CVal.dict (ps.map (mutateParam d outliers)))
      else kv
    | v =>
      if v.isNumeric then
        (kv.1, randomize_value d (CfgPath.top kv.1) v
                 (outliers.contains (CfgPath.top kv.1)))
      else kv

/-- Model of `randomize_config(config)` (main.py lines 36-88). -/
def randomize_config (d : Draws) (config : List (String × CVal)) : List (String × CVal) :=
  let paths := allNumericPaths config
  let numOutliers := min d.k paths.length
  let outliers := if paths.isEmpty then [] else d.sample paths numOutliers
  config.map (mutateEntry d outliers)

/-- Value of the config field addressed by a path: a top-level lookup, or a
lookup inside the `parameters` dict. -/
def cfgValueAt (config : List (String × CVal)) : CfgPath → Option CVal
  | CfgPath.top k => dictGet config k
  | CfgPath.param k =>
    match dictGet config "parameters" with
    | some (CVal.dict ps) => dictGet ps k
    | _ => Option.none

/-- The outlier path set of one `randomize_config` call:
`set(random.sample(all_numeric_paths, num_outliers)) if all_numeric_paths
else set()` (main.py lines 65-66). -/
def outliersOf (d : Draws) (config : List (String × CVal)) : List CfgPath :=
  let paths := allNumericPaths config
  if paths.isEmpty then [] else d.sample paths (min d.k paths.length)

/-- A message on the failure / simulation topics, with the fields the Test
Generator reads or writes.  Absent dict keys are `Option.none`; the `.get`
defaults of the source appear at the use sites. -/
structure Msg where
  message_key : Option String
  source : Option String
  parent_key : Option String
  model_filename : Option String
  model_s3_path : Option String
  input_data : Option (List (List (String × CVal)))
  config : Option (List (String × CVal))
  submitted_at : Option String

/-- Model of `generate_test_payloads(row, num_tests)` (main.py lines 91-130).
`draws i` supplies the random draws of the i-th `randomize_config` call and
`now` the `datetime.now(...)` timestamp string. -/
def generate_test_payloads (draws : Nat → Draws) (now : String) (row : Msg)
    (num_tests : Nat) : List Msg :=
  let message_key := row.message_key.getD "unknown"
  let original_config := row.config.getD []
  (List.range num_tests).map (fun i =>
    { message_key := some (message_key ++ "_gen_" ++ toString (i + 1))
      submitted_at := some now
      model_filename := some (row.model_filename.getD "")
      model_s3_path := some (row.model_s3_path.getD "")
      input_data := some []
      config := some (randomize_config (draws i) original_config)
      source := some "system"
      parent_key := some message_key })

/-- Model of `process_failure(row)` (main.py lines 133-160); `num_tests` is
`int(os.environ.get("NUM_TESTS", "10"))`.  `handle_failure` publishes exactly
the returned payloads, so an empty return means zero published children. -/
def process_failure (draws : Nat → Draws) (now : String) (num_tests : Nat)
    (row : Msg) : List Msg :=
  let source := row.source.getD "unknown"
  if source ≠ "user" then []
  else generate_test_payloads draws now row num_tests

/-! ## Validator model (src/validator/main.py) -/

/-- A Python value as it appears in simulation `input_data` rows and in
`target_value`.  `num` covers int/float/bool; `txt c` covers any other
non-`None` value, with `c` the result of `float(v)` (`Option.none` when
`float(v)` raises, `some q` when it parses to `q`); `pynull` is `None`. -/
inductive PyVal where
  | pynull
  | num (q : ℚ)
  | txt (coe : Option ℚ)
deriving DecidableEq

/-- Python dict lookup (first binding) for data rows. -/
def rowGet (d : List (String × PyVal)) (k : String) : Option PyVal :=
  (d.find? (fun p => p.1 == k)).map (fun p => p.2)

/-- Python `float(v)`: `some` the numeric content, `Option.none` when it
raises (`TypeError` on `None`, `ValueError` on a non-coercible value). -/
def pyFloat : PyVal → Option ℚ
  | PyVal.pynull => Option.none
  | PyVal.num q => some q
  | PyVal.txt c => c

/-- Model of `[float(v) for v in values if v is not None]` inside the `try`
block of `validate_simulation`: skip `None`s, coerce the rest; `Option.none`
when any coercion raises. -/
def coerceAll : List PyVal → Option (List ℚ)
  | [] => some []
  | PyVal.pynull :: rest => coerceAll rest
  | v :: rest =>
    match pyFloat v, coerceAll rest with
    | some q, some qs => some (q :: qs)
    | _, _ => Option.none

/-- Python `max` over a non-empty list, as the left fold of the running
maximum (`b` is the running value, seeded with the first element). -/
def listMaxQ : ℚ → List ℚ → ℚ
  | b, [] => b
  | b, x :: xs => listMaxQ (if x > b then x else b) xs

/-- The validation verdict dict built by `validate_simulation`.
`target_value` is echoed as the original (uncoerced) value, as in the source;
the diagnostic `reason` strings abbreviate the source's f-strings (the
`:.4f` numeric formatting is not modelled). -/
structure Verdict where
  metric : String
  calculated_value : Option ℚ
  target_value : PyVal
  passed : Bool
  reason : String
deriving DecidableEq

/-- Model of `validate_simulation(row)` (validator/main.py lines 22-106), as
a function of the extracted criteria: `field_name` and `target_value` are
`config["success_criteria"]`'s entries (source defaults: `"position"` and
`0`), `input_data` the data rows.  An exception in the `try` block (a
non-coercible non-`None` value, or a non-coercible `target_value`) lands in
the `except` branch: `passed=false`, `calculated_value=None`. -/
def validate_simulation (field_name : String) (target_value : PyVal)
    (input_data : List (List (String × PyVal))) : Verdict :=
  let values := input_data.filterMap (fun point => rowGet point field_name)
  if values.isEmpty then
    { metric := "max_" ++ field_name
      calculated_value := Option.none
      target_value := target_value
      passed := false
      reason := "No '" ++ field_name ++ "' data in simulation results" }
  else
    match coerceAll values with
    | Option.none =>
      { metric := "max_" ++ field_name
        calculated_value := Option.none
        target_value := target_value
        passed := false
        reason := "Error converting values to numeric" }
    | some numeric_values =>
      match numeric_values with
      | [] =>
        { metric := "max_" ++ field_name
          calculated_value := Option.none
          target_value := target_value
          passed := false
          reason := "No numeric values for '" ++ field_name ++ "'" }
      | q :: qs =>
        let calculated := listMaxQ q qs
        match pyFloat target_value with
        | Option.none =>
          { metric := "max_" ++ field_name
            calculated_value := Option.none
            target_value := target_value
            passed := false
            reason := "Error converting values to numeric" }
        | some t =>
          { metric := "max_" ++ field_name
            calculated_value := some calculated
            target_value := target_value
            passed := decide (calculated ≥ t)
            reason := if calculated ≥ t then "meets target" else "below target" }

/-! ## Family Resolver model
(src/http-api-source/datalake_query.py, local_store.py) -/

/-- A persisted verdict-tagged result record, restricted to the fields the
resolver reads.  `validation_passed` / `validation_calculated_value` are the
flattened verdict columns; a missing or `None` column is `Option.none`
(`_clean_dict` already maps NaN to `None`). -/
structure Rec where
  message_key : String
  validation_passed : Option Bool
  validation_calculated_value : Option ℚ
deriving DecidableEq

/-- The sort key of `get_family_result`'s `max(...)` call:
`r.get('validation_calculated_value', 0) or 0`. -/
def recValue (r : Rec) : ℚ := r.validation_calculated_value.getD 0

/-- Python `max(list, key=f)`: scan left to right keeping the current best,
replacing it only on a strictly greater key — so ties keep the earliest. -/
def pyMaxBy (f : Rec → ℚ) : Rec → List Rec → Rec
  | b, [] => b
  | b, x :: xs => pyMaxBy f (if f x > f b then x else b) xs

/-- The aggregated family outcome: the winning record plus the `_family_*`
annotation fields `get_family_result` adds. -/
structure FamilyOutcome where
  best : Rec
  family_passed : Bool
  family_total_runs : Nat
  family_passed_count : Nat
  is_variant : Bool
deriving DecidableEq

/-- Model of the selection part of `get_family_result` (datalake_query.py
lines 198-229), as a function of the already-fetched family list. -/
def get_family_result (related_runs : List Rec) : Option FamilyOutcome :=
  match related_runs with
  | [] => Option.none
  | r0 :: rest =>
    let related := r0 :: rest
    let passing := related.filter (fun r => r.validation_passed == some true)
    match passing with
    | p0 :: ps =>
      let best_run := pyMaxBy recValue p0 ps
      some { best := best_run
             family_passed := true
             family_total_runs := related.length
             family_passed_count := (p0 :: ps).length
             is_variant := hasGen best_run.message_key }
    | [] =>
      let original := (related.find? (fun r => ! hasGen r.message_key)).getD r0
      some { best := original
             family_passed := false
             family_total_runs := related.length
             family_passed_count := 0
             is_variant := false }

/-- Insert into a sorted list, keeping existing elements first on ties
(stable, like Python's sort). -/
def insertLe (le : Rec → Rec → Bool) (x : Rec) : List Rec → List Rec
  | [] => [x]
  | y :: ys => if le y x then y :: insertLe le x ys else x :: y :: ys

/-- Stable insertion sort modelling Python's `list.sort(key=...)`. -/
def insSort (le : Rec → Rec → Bool) : List Rec → List Rec
  | [] => []
  | x :: xs => insertLe le x (insSort le xs)

/-- The comparison `local_store.py` sorts by:
`key=lambda r: r.get("message_key", "")` under Python string order. -/
def recKeyLe (a b : Rec) : Bool := strLe a.message_key b.message_key

/-- Model of `LocalStore.get_related_runs` (local_store.py lines 93-110).
The store is the `_results` dict: pairs of (dict key, stored record) in
insertion order. -/
def localStore_get_related_runs (store : List (String × Rec)) (message_key : String) :
    List Rec :=
  let base_key := if hasGen message_key then baseKey message_key else message_key
  let related := (store.filter (fun p =>
    p.1 == base_key || strStartsWith p.1 (base_key ++ "_gen_"))).map (fun p => p.2)
  insSort recKeyLe related

/-- Outcome of one storage query attempt in `DataLakeQuery.get_related_runs`:
either the query raised, or it returned a (possibly empty) record list. -/
inductive QueryOutcome where
  | err
  | ok (rows : List Rec)

/-- The TTL cache `_cache`: newest entries first; a lookup takes the first
binding, an insert conses (overwriting by shadowing). -/
abbrev Cache := List (String × (ℚ × List Rec))

/-- First cache binding for a key. -/
def cacheLookup (c : Cache) (k : String) : Option (ℚ × List Rec) :=
  (c.find? (fun p => p.1 == k)).map (fun p => p.2)

/-- Source constant `MAX_RETRIES = 3` (datalake_query.py line 32). -/
def MAX_RETRIES : Nat := 3

/-- Source constant `CACHE_TTL = 300` seconds (datalake_query.py line 34). -/
def CACHE_TTL : ℚ := 300

/-- The retry loop of `DataLakeQuery.get_related_runs` (lines 169-196):
run attempts `attempt, attempt+1, ...` while fuel lasts; an attempt that
raises or returns an empty frame falls through to the next one; a non-empty
frame returns immediately.  Yields the found rows (if any) and the number of
storage queries issued. -/
def queryAttempts (storage : Nat → QueryOutcome) : Nat → Nat → Option (List Rec) × Nat
  | _, 0 => (Option.none, 0)
  | attempt, fuel + 1 =>
    match storage attempt with
    | QueryOutcome.ok rows =>
      if rows.isEmpty then
        let r := queryAttempts storage (attempt + 1) fuel
        (r.1, r.2 + 1)
      else (some rows, 1)
    | QueryOutcome.err =>
      let r := queryAttempts storage (attempt + 1) fuel
      (r.1, r.2 + 1)

/-- Result of one `DataLakeQuery.get_related_runs` call: the returned rows,
the cache afterwards, and how many storage queries the call issued. -/
structure FetchResult where
  rows : List Rec
  cache : Cache
  storageCalls : Nat
deriving DecidableEq

/-- Model of `DataLakeQuery.get_related_runs(message_key)` (datalake_query.py
lines 143-196) in QuixLake mode: derive `base_key`, serve a fresh cache entry
if present, otherwise run the retry loop; a non-empty result is cached (at
the current clock `now`), an exhausted loop returns `[]` leaving the cache
untouched.  `storage n` is the outcome the backing store gives attempt `n`;
`now` the value of `time.time()` (the seconds the 1s inter-attempt sleeps add
within one call are not modelled). -/
def get_related_runs (storage : Nat → QueryOutcome) (now : ℚ) (cache : Cache)
    (message_key : String) : FetchResult :=
  let base_key := if hasGen message_key then baseKey message_key else message_key
  let cache_key := "related:" ++ base_key
  let fetch : FetchResult :=
    match queryAttempts storage 0 (MAX_RETRIES + 1) with
    | (some rows, n) => ⟨rows, (cache_key, (now, rows)) :: cache, n⟩
    | (Option.none, n) => ⟨[], cache, n⟩
  match cacheLookup cache cache_key with
  | some e => if now - e.1 < CACHE_TTL then ⟨e.2, cache, 0⟩ else fetch
  | Option.none => fetch

/-! ## Concrete instances used by the witnesses -/

/-- A concrete random-draw oracle: `randint` answer 1, `sample` takes the
first elements, 12% wide draw, 5% narrow draw, positive direction. -/
def drawsEx : Draws :=
  { k := 1
    sample := fun l n => l.take n
    pctWide := fun _ => 12 / 100
    pctNarrow := fun _ => 5 / 100
    dir := fun _ => 1 }

/-- A concrete user-submitted failure message. -/
def rowUser : Msg :=
  { message_key := some "run1"
    source := some "user"
    parent_key := Option.none
    model_filename := some "bounce.fmu"
    model_s3_path := some "s3://models/bounce.fmu"
    input_data := some []
    config := some [("success_criteria", CVal.dict [("field_name", CVal.other 0)]),
                    ("start_height", CVal.float 1)]
    submitted_at := Option.none }

/-- A concrete system-generated failure message. -/
def rowSystem : Msg :=
  { rowUser with message_key := some "run1_gen_1", source := some "system",
                 parent_key := some "run1" }

/-- A concrete config with an int field, criteria, a parameters dict and a
float field. -/
def cfgEx : List (String × CVal) :=
  [("a", CVal.int 4),
   ("success_criteria", CVal.dict [("target_value", CVal.float 1)]),
   ("parameters", CVal.dict [("m", CVal.float 3), ("s", CVal.other 0)]),
   ("b", CVal.float 2)]

/-- Concrete persisted records: a failed root and two variants passing, the
second with the larger calculated value. -/
def recRoot : Rec := ⟨"R", some false, some 5⟩

/-- Passing variant record with the smaller calculated value. -/
def recG1 : Rec := ⟨"R_gen_1", some true, some 9⟩

/-- Best passing variant record. -/
def recG2 : Rec := ⟨"R_gen_2", some true, some 12⟩

/-- Unrelated record under an unrelated key. -/
def recOther : Rec := ⟨"X", some true, some 7⟩

/-- A concrete store in scrambled insertion order. -/
def storeEx : List (String × Rec) :=
  [("R_gen_2", recG2), ("R", recRoot), ("X", recOther), ("R_gen_1", recG1)]

/-! ## Generic helper lemmas -/

/-! ## C1 -/

/-- C1: a failed-verdict message whose `source` is not `"user"` makes
`process_failure` return the empty list (so `handle_failure` publishes zero
children), and every child `generate_test_payloads` constructs carries
`source = "system"`, on which `process_failure` again returns the empty list:
the search is one generation deep from a user-initiated root. -/
theorem process_failure_one_generation :
    (∀ (draws : Nat → Draws) (now : String) (n : Nat) (row : Msg),
       row.source.getD "unknown" ≠ "user" → process_failure draws now n row = []) ∧
    (∀ (draws : Nat → Draws) (now : String) (row : Msg) (n : Nat) (child : Msg),
       child ∈ generate_test_payloads draws now row n →
         child.source = some "system" ∧
         ∀ (draws2 : Nat → Draws) (now2 : String) (m : Nat),
           process_failure draws2 now2 m child = []) := by
  constructor
  · intro draws now n row h
    simp only [process_failure, if_pos h]
  · intro draws now row n child hmem
    simp only [generate_test_payloads, List.mem_map, List.mem_range] at hmem
    obtain ⟨i, _, rfl⟩ := hmem
    refine ⟨rfl, ?_⟩
    intro draws2 now2 m
    simp only [process_failure, Option.getD_some]
    simp

/-- Witness for C1 at a concrete system-generated message. -/
theorem process_failure_one_generation_witness :
    process_failure (fun _ => drawsEx) "2026-01-01T00:00:00Z" 5 rowSystem = [] :=
  process_failure_one_generation.1 (fun _ => drawsEx) "2026-01-01T00:00:00Z" 5 rowSystem
    (by simp [rowSystem, rowUser])

/-! ## C2 -/

/-- C2: on a failed verdict with root key `K`, `generate_test_payloads`
returns exactly `n` children; the i-th child (1-based index `i + 1`) has key
`K ++ "_gen_" ++ toString (i+1)`, `source = "system"`, `parent_key = K`,
empty `input_data`, and the model reference fields copied from the parent;
and the produced key list depends only on `K` and the index, so redelivery
regenerates an identical key set. -/
theorem generate_test_payloads_spec (draws : Nat → Draws) (now : String) (row : Msg)
    (n : Nat) (K : String) (hK : row.message_key = some K) :
    (generate_test_payloads draws now row n).length = n ∧
    (∀ i, i < n →
      (generate_test_payloads draws now row n).get? i = some
        { message_key := some (K ++ "_gen_" ++ toString (i + 1))
          submitted_at := some now
          model_filename := some (row.model_filename.getD "")
          model_s3_path := some (row.model_s3_path.getD "")
          input_data := some []
          config := some (randomize_config (draws i) (row.config.getD []))
          source := some "system"
          parent_key := some K }) ∧
    (∀ (draws2 : Nat → Draws) (now2 : String) (row2 : Msg),
      row2.message_key = some K →
      (generate_test_payloads draws2 now2 row2 n).map (fun m => m.message_key) =
        (generate_test_payloads draws now row n).map (fun m => m.message_key)) := by
  refine ⟨?_, ?_, ?_⟩
  · simp [generate_test_payloads]
  · intro i hi
    simp only [generate_test_payloads, List.get?_eq_getElem?, List.getElem?_map,
      List.getElem?_range hi, hK, Option.map_some']
    rfl
  · intro draws2 now2 row2 hK2
    simp only [generate_test_payloads, hK, hK2, List.map_map]
    rfl

/-- Witness for C2: three children of the concrete user message. -/
theorem generate_test_payloads_spec_witness :
    (generate_test_payloads (fun _ => drawsEx) "T" rowUser 3).length = 3 ∧
    (generate_test_payloads (fun _ => drawsEx) "T" rowUser 3).get? 1 = some
      { message_key := some ("run1" ++ "_gen_" ++ toString (1 + 1))
        submitted_at := some "T"
        model_filename := some (rowUser.model_filename.getD "")
        model_s3_path := some (rowUser.model_s3_path.getD "")
        input_data := some []
        config := some (randomize_config drawsEx (rowUser.config.getD []))
        source := some "system"
        parent_key := some "run1" } :=
  ⟨(generate_test_payloads_spec (fun _ => drawsEx) "T" rowUser 3 "run1" rfl).1,
   (generate_test_payloads_spec (fun _ => drawsEx) "T" rowUser 3 "run1" rfl).2.1 1
     (by decide)⟩

/-! ## C10 -/

/-- C10: zero is a fixed point of mutation.  For every random draw,
`randomize_value` maps the integer `0` to integer `0` and the float `0` to
float `0` (the perturbation is multiplicative), and consequently any config
entry holding a numeric zero is identical in every variant
`randomize_config` produces. -/
theorem randomize_value_zero_fixed :
    (∀ (d : Draws) (p : CfgPath) (w : Bool),
        randomize_value d p (CVal.int 0) w = CVal.int 0 ∧
        randomize_value d p (CVal.float 0) w = CVal.float 0) ∧
    (∀ (d : Draws) (config : List (String × CVal)) (i : Nat) (k : String),
        config.get? i = some (k, CVal.int 0) →
        (randomize_config d config).get? i = some (k, CVal.int 0)) ∧
    (∀ (d : Draws) (config : List (String × CVal)) (i : Nat) (k : String),
        config.get? i = some (k, CVal.float 0) →
        (randomize_config d config).get? i = some (k, CVal.float 0)) := by
  have hval : ∀ (d : Draws) (p : CfgPath) (w : Bool),
      randomize_value d p (CVal.int 0) w = CVal.int 0 ∧
      randomize_value d p (CVal.float 0) w = CVal.float 0 := by
    intro d p w
    constructor
    · simp only [randomize_value, CVal.toRat, CVal.isIntLike, Int.cast_zero, zero_mul,
        if_true]
      norm_num [pyRound]
    · simp [randomize_value, CVal.toRat, CVal.isIntLike]
  refine ⟨hval, ?_, ?_⟩
  · intro d config i k h
    unfold randomize_config
    rw [List.get?_eq_getElem?, List.getElem?_map, ← List.get?_eq_getElem?, h]
    simp only [Option.map_some']
    by_cases hk : k = "success_criteria"
    · simp [mutateEntry, hk]
    · have hkb : (k == "success_criteria") = false := by simp [hk]
      simp [mutateEntry, hkb, CVal.isNumeric, (hval d (CfgPath.top k) _).1]
  · intro d config i k h
    unfold randomize_config
    rw [List.get?_eq_getElem?, List.getElem?_map, ← List.get?_eq_getElem?, h]
    simp only [Option.map_some']
    by_cases hk : k = "success_criteria"
    · simp [mutateEntry, hk]
    · have hkb : (k == "success_criteria") = false := by simp [hk]
      simp [mutateEntry, hkb, CVal.isNumeric, (hval d (CfgPath.top k) _).2]

/-- Witness for C10 at a concrete one-entry config. -/
theorem randomize_value_zero_fixed_witness :
    (randomize_config drawsEx [("x", CVal.int 0)]).get? 0 = some ("x", CVal.int 0) :=
  randomize_value_zero_fixed.2.1 drawsEx [("x", CVal.int 0)] 0 "x" rfl


/-! ## Entry-level lemmas about the mutation loop body -/

/-- The loop body never changes an entry's key. -/
lemma mutateEntry_fst (d : Draws) (o : List CfgPath) (kv : String × CVal) :
    (mutateEntry d o kv).1 = kv.1 := by
  obtain ⟨k, v⟩ := kv
  unfold mutateEntry
  by_cases hk : (k == "success_criteria") = true
  · simp [hk]
  · simp only [Bool.not_eq_true] at hk
    cases v <;> simp [hk] <;> split <;> simp

/-- The `success_criteria` entry is passed through unchanged. -/
lemma mutateEntry_sc (d : Draws) (o : List CfgPath) (kv : String × CVal)
    (h : kv.1 = "success_criteria") : mutateEntry d o kv = kv := by
  obtain ⟨k, v⟩ := kv
  have h' : k = "success_criteria" := h
  subst h'
  simp [mutateEntry]

/-- A non-numeric entry at a key other than `success_criteria` and
`parameters` is passed through unchanged. -/
lemma mutateEntry_nonnum (d : Draws) (o : List CfgPath) (kv : String × CVal)
    (hsc : kv.1 ≠ "success_criteria") (hp : kv.1 ≠ "parameters")
    (hn : kv.2.isNumeric = false) : mutateEntry d o kv = kv := by
  obtain ⟨k, v⟩ := kv
  have hsc' : k ≠ "success_criteria" := hsc
  have hp' : k ≠ "parameters" := hp
  have hn' : v.isNumeric = false := hn
  unfold mutateEntry
  simp only [show (k == "success_criteria") = false by simp [hsc']]
  cases v <;> simp_all [CVal.isNumeric]

/-- A non-numeric, non-dict entry at key `parameters` is passed through
unchanged. -/
lemma mutateEntry_param_nondict (d : Draws) (o : List CfgPath) (v : CVal)
    (hd : ∀ ps, v ≠ CVal.dict ps) (hn : v.isNumeric = false) :
    mutateEntry d o ("parameters", v) = ("parameters", v) := by
  unfold mutateEntry
  simp only [show (("parameters", v).1 == "success_criteria") = false by simp]
  cases v with
  | dict ps => exact absurd rfl (hd ps)
  | int n => simp [CVal.isNumeric] at hn
  | bool b => simp [CVal.isNumeric] at hn
  | float q => simp [CVal.isNumeric] at hn
  | other t => simp [CVal.isNumeric]

/-- The `parameters` dict is mutated entry-wise by `mutateParam`. -/
lemma mutateEntry_param_dict (d : Draws) (o : List CfgPath) (ps : List (String × CVal)) :
    mutateEntry d o ("parameters", CVal.dict ps) =
      ("parameters", CVal.dict (ps.map (mutateParam d o))) := by
  unfold mutateEntry
  simp

/-- A numeric entry at a key other than `success_criteria` is mutated with
`randomize_value` at its top-level path. -/
lemma mutateEntry_num (d : Draws) (o : List CfgPath) (kv : String × CVal)
    (hsc : kv.1 ≠ "success_criteria") (hn : kv.2.isNumeric = true) :
    mutateEntry d o kv =
      (kv.1, randomize_value d (CfgPath.top kv.1) kv.2 (o.contains (CfgPath.top kv.1))) := by
  obtain ⟨k, v⟩ := kv
  simp only at hsc hn
  unfold mutateEntry
  simp only [show (k == "success_criteria") = false by simp [hsc]]
  cases v <;> simp_all [CVal.isNumeric]

/-- `mutateParam` never changes a key, passes a non-numeric entry through
unchanged, and mutates a numeric entry at its `parameters` path. -/
lemma mutateParam_spec (d : Draws) (o : List CfgPath) (pv : String × CVal) :
    (mutateParam d o pv).1 = pv.1 ∧
    (pv.2.isNumeric = false → mutateParam d o pv = pv) ∧
    (pv.2.isNumeric = true → mutateParam d o pv =
      (pv.1, randomize_value d (CfgPath.param pv.1) pv.2
               (o.contains (CfgPath.param pv.1)))) := by
  obtain ⟨k, v⟩ := pv
  unfold mutateParam
  by_cases hn : v.isNumeric = true
  · simp [hn]
  · simp only [Bool.not_eq_true] at hn
    simp [hn]

/-! ## C8 -/

/-- C8: `randomize_config` is a frame over the non-candidates, for every
input config and every random draw: the `success_criteria` entry is passed
through unchanged (the very same value), every non-numeric field is passed
through unchanged (at top level and inside the `parameters` sub-dict), keys
and entry order are preserved, and hence only numeric fields outside
`success_criteria` — at top level or inside `parameters` — can differ
between input and output. -/
theorem randomize_config_frame (d : Draws) (config : List (String × CVal)) :
    (randomize_config d config).length = config.length ∧
    (∀ (i : Nat) (kv : String × CVal), config.get? i = some kv →
      ∃ kv2 : String × CVal, (randomize_config d config).get? i = some kv2 ∧
        kv2.1 = kv.1 ∧
        (kv.1 = "success_criteria" → kv2 = kv) ∧
        (kv.1 ≠ "success_criteria" → kv.1 ≠ "parameters" → kv.2.isNumeric = false →
          kv2 = kv) ∧
        (kv.1 = "parameters" → kv.2.isNumeric = false → (∀ ps, kv.2 ≠ CVal.dict ps) →
          kv2 = kv) ∧
        (∀ ps, kv.1 = "parameters" → kv.2 = CVal.dict ps →
          ∃ ps2, kv2.2 = CVal.dict ps2 ∧ ps2.length = ps.length ∧
            ∀ (j : Nat) (pv : String × CVal), ps.get? j = some pv →
              ∃ pv2 : String × CVal, ps2.get? j = some pv2 ∧ pv2.1 = pv.1 ∧
                (pv.2.isNumeric = false → pv2 = pv))) := by
  constructor
  · simp [randomize_config]
  · intro i kv h
    unfold randomize_config
    rw [List.get?_eq_getElem?, List.getElem?_map, ← List.get?_eq_getElem?, h,
      Option.map_some']
    set o := if (allNumericPaths config).isEmpty then []
             else d.sample (allNumericPaths config) (min d.k (allNumericPaths config).length)
      with ho
    refine ⟨mutateEntry d o kv, rfl, mutateEntry_fst d o kv, mutateEntry_sc d o kv,
      mutateEntry_nonnum d o kv, ?_, ?_⟩
    · intro hp hn hd
      obtain ⟨k, v⟩ := kv
      simp only at hp
      subst hp
      exact mutateEntry_param_nondict d o v (by simpa using hd) hn
    · intro ps hp hv
      obtain ⟨k, v⟩ := kv
      simp only at hp hv
      subst hp
      subst hv
      rw [mutateEntry_param_dict]
      refine ⟨ps.map (mutateParam d o), rfl, by simp, ?_⟩
      intro j pv hj
      rw [List.get?_eq_getElem?, List.getElem?_map, ← List.get?_eq_getElem?, hj,
        Option.map_some']
      exact ⟨mutateParam d o pv, rfl, (mutateParam_spec d o pv).1,
        (mutateParam_spec d o pv).2.1⟩

/-- Witness for C8 at a concrete config with a criteria dict, a string field
and numeric fields. -/
theorem randomize_config_frame_witness :
    (randomize_config drawsEx
      [("success_criteria", CVal.dict [("target_value", CVal.float 1)]),
       ("name", CVal.other 3), ("start_height", CVal.float 2)]).length = 3 ∧
    ∃ kv2 : String × CVal,
      (randomize_config drawsEx
        [("success_criteria", CVal.dict [("target_value", CVal.float 1)]),
         ("name", CVal.other 3), ("start_height", CVal.float 2)]).get? 0 = some kv2 ∧
      kv2 = ("success_criteria", CVal.dict [("target_value", CVal.float 1)]) := by
  have h := randomize_config_frame drawsEx
    [("success_criteria", CVal.dict [("target_value", CVal.float 1)]),
     ("name", CVal.other 3), ("start_height", CVal.float 2)]
  refine ⟨h.1, ?_⟩
  obtain ⟨kv2, hsome, _, hsc, _⟩ := h.2 0
    ("success_criteria", CVal.dict [("target_value", CVal.float 1)]) rfl
  exact ⟨kv2, hsome, hsc rfl⟩

/-! ## Lookup lemmas for mutated configs -/

/-- A key-preserving map commutes with `find?` on the key predicate. -/
lemma find?_map_keyPres (f : (String × CVal) → String × CVal)
    (hf : ∀ kv, (f kv).1 = kv.1) (k : String) (l : List (String × CVal)) :
    (l.map f).find? (fun p => p.1 == k) = (l.find? (fun p => p.1 == k)).map f := by
  induction l with
  | nil => rfl
  | cons kv rest ih =>
    simp only [List.map_cons, List.find?_cons, hf kv]
    cases hk : kv.1 == k with
    | false => simpa using ih
    | true => simp

/-- Dict lookup through a key-preserving map. -/
lemma dictGet_map_of_fst (f : (String × CVal) → String × CVal)
    (hf : ∀ kv, (f kv).1 = kv.1) (l : List (String × CVal)) (k : String) (v : CVal)
    (h : dictGet l k = some v) : dictGet (l.map f) k = some (f (k, v)).2 := by
  unfold dictGet at h ⊢
  rw [find?_map_keyPres f hf k]
  cases hfind : l.find? (fun p => p.1 == k) with
  | none => rw [hfind] at h; simp at h
  | some p =>
    rw [hfind] at h
    simp only [Option.map_some', Option.some.injEq] at h
    have hk : p.1 = k := by simpa using List.find?_some hfind
    simp only [Option.map_some', Option.some.injEq]
    rw [← h, ← hk]

/-- With pairwise-distinct keys (a Python dict), the lookup of a member's key
returns that member's value. -/
lemma dictGet_of_mem_nodup (l : List (String × CVal))
    (hnd : (l.map Prod.fst).Nodup) (kv : String × CVal) (h : kv ∈ l) :
    dictGet l kv.1 = some kv.2 := by
  induction l with
  | nil => simp at h
  | cons a rest ih =>
    rw [List.map_cons, List.nodup_cons] at hnd
    simp only [List.mem_cons] at h
    rcases h with rfl | h
    · unfold dictGet
      rw [List.find?_cons_of_pos _ (by simp)]
      rfl
    · have hne : (a.1 == kv.1) = false := by
        simp only [beq_eq_false_iff_ne, ne_eq]
        intro he
        exact hnd.1 (he ▸ List.mem_map_of_mem Prod.fst h)
      unfold dictGet
      rw [List.find?_cons_of_neg _ (by simp [hne])]
      exact ih hnd.2 h


/-! ## Membership characterization of the candidate paths -/

/-- No top-level path lives in the `parameters` component. -/
lemma top_not_mem_paramPaths (config : List (String × CVal)) (k : String) :
    CfgPath.top k ∉ paramPaths config := by
  unfold paramPaths
  cases dictGet config "parameters" with
  | none => simp
  | some v =>
    cases v with
    | dict ps =>
      intro hmem
      simp only [List.mem_filterMap] at hmem
      obtain ⟨pv, _, hc⟩ := hmem
      split at hc
      · exact absurd hc (by simp)
      · exact absurd hc (by simp)
    | int n => simp
    | bool b => simp
    | float q => simp
    | other t => simp

/-- No `parameters` path lives in the top-level component. -/
lemma param_not_mem_topPaths (config : List (String × CVal)) (k : String) :
    CfgPath.param k ∉ topPaths config := by
  intro hmem
  simp only [topPaths, List.mem_filterMap] at hmem
  obtain ⟨kv, _, hc⟩ := hmem
  split at hc
  · exact absurd hc (by simp)
  · exact absurd hc (by simp)

/-- Characterization of top-level candidate membership. -/
lemma mem_topPaths (config : List (String × CVal)) (k : String) :
    CfgPath.top k ∈ topPaths config ↔
      ∃ kv ∈ config, kv.1 = k ∧ k ≠ "parameters" ∧ k ≠ "success_criteria" ∧
        kv.2.isNumeric = true := by
  simp only [topPaths, List.mem_filterMap]
  constructor
  · rintro ⟨kv, hmem, hc⟩
    split at hc
    case isTrue hcond =>
      simp only [Option.some.injEq, CfgPath.top.injEq] at hc
      subst hc
      exact ⟨kv, hmem, rfl, hcond.1, hcond.2.1, hcond.2.2⟩
    case isFalse => exact absurd hc (by simp)
  · rintro ⟨kv, hmem, rfl, hp, hs, hn⟩
    exact ⟨kv, hmem, by simp [hp, hs, hn]⟩

/-- Characterization of `parameters` candidate membership, given the
`parameters` entry is a dict. -/
lemma mem_paramPaths (config : List (String × CVal)) (k : String)
    (ps : List (String × CVal))
    (hps : dictGet config "parameters" = some (CVal.dict ps)) :
    CfgPath.param k ∈ paramPaths config ↔
      ∃ pv ∈ ps, pv.1 = k ∧ pv.2.isNumeric = true := by
  unfold paramPaths
  rw [hps]
  simp only [List.mem_filterMap]
  constructor
  · rintro ⟨pv, hmem, hc⟩
    split at hc
    case isTrue hcond =>
      simp only [Option.some.injEq, CfgPath.param.injEq] at hc
      subst hc
      exact ⟨pv, hmem, rfl, hcond⟩
    case isFalse => exact absurd hc (by simp)
  · rintro ⟨pv, hmem, rfl, hn⟩
    exact ⟨pv, hmem, by simp [hn]⟩

/-! ## C9 -/

/-- C9: in every variant, with the `random` library contract supplied as
hypotheses (`randint(1,3)` in 1..3, `sample` an n-element subsequence of
distinct positions, `uniform` within its bounds, `choice([-1,1])` a sign),
exactly `min(k, |candidates|)` candidate paths are selected as outliers; the
value at every candidate path becomes `randomize_value` of the old value,
wide (10-30%) exactly when the path is an outlier and narrow (2-20%)
otherwise, with the sign free per field, an integer field rounded back to an
integer and a float field kept float. -/
theorem randomize_config_perturbation (d : Draws) (config : List (String × CVal))
    (hk1 : 1 ≤ d.k) (hk3 : d.k ≤ 3)
    (hsample : (allNumericPaths config).isEmpty = false →
      (d.sample (allNumericPaths config) (min d.k (allNumericPaths config).length)).length
          = min d.k (allNumericPaths config).length ∧
      (d.sample (allNumericPaths config) (min d.k (allNumericPaths config).length)).Nodup ∧
      ∀ p ∈ d.sample (allNumericPaths config) (min d.k (allNumericPaths config).length),
        p ∈ allNumericPaths config)
    (hwide : ∀ p, 1/10 ≤ d.pctWide p ∧ d.pctWide p ≤ 3/10)
    (hnarrow : ∀ p, 1/50 ≤ d.pctNarrow p ∧ d.pctNarrow p ≤ 1/5)
    (hdir : ∀ p, d.dir p = 1 ∨ d.dir p = -1)
    (hndk : (config.map Prod.fst).Nodup)
    (hndp : ∀ ps, dictGet config "parameters" = some (CVal.dict ps) →
      (ps.map Prod.fst).Nodup) :
    ((allNumericPaths config).isEmpty = false →
      (outliersOf d config).length = min d.k (allNumericPaths config).length ∧
      (outliersOf d config).Nodup ∧
      ∀ p ∈ outliersOf d config, p ∈ allNumericPaths config) ∧
    (∀ p ∈ allNumericPaths config, ∀ v, cfgValueAt config p = some v →
      v.isNumeric = true ∧
      cfgValueAt (randomize_config d config) p =
        some (randomize_value d p v ((outliersOf d config).contains p)) ∧
      ((outliersOf d config).contains p = true →
        1/10 ≤ d.pctWide p ∧ d.pctWide p ≤ 3/10) ∧
      ((outliersOf d config).contains p = false →
        1/50 ≤ d.pctNarrow p ∧ d.pctNarrow p ≤ 1/5) ∧
      (d.dir p = 1 ∨ d.dir p = -1) ∧
      (v.isIntLike = true →
        randomize_value d p v ((outliersOf d config).contains p) =
          CVal.int (pyRound (v.toRat * (1 + (d.dir p : ℚ) *
            (if (outliersOf d config).contains p then d.pctWide p else d.pctNarrow p))))) ∧
      (v.isIntLike = false →
        randomize_value d p v ((outliersOf d config).contains p) =
          CVal.float (v.toRat * (1 + (d.dir p : ℚ) *
            (if (outliersOf d config).contains p then d.pctWide p else d.pctNarrow p))))) := by
  constructor
  · intro hne
    have heq : outliersOf d config =
        d.sample (allNumericPaths config) (min d.k (allNumericPaths config).length) := by
      unfold outliersOf
      rw [if_neg (by simp [hne])]
    rw [heq]
    exact hsample hne
  · intro p hp v hv
    cases p with
    | top k =>
      rw [allNumericPaths, List.mem_append] at hp
      rcases hp with hp | hp
      · exact absurd hp (top_not_mem_paramPaths config k)
      obtain ⟨kv, hmem, hfst, _, hkns, hnum⟩ := (mem_topPaths config k).mp hp
      have hlook : dictGet config k = some kv.2 := by
        have h := dictGet_of_mem_nodup config hndk kv hmem
        rwa [hfst] at h
      have hveq : v = kv.2 := by
        have hv' : dictGet config k = some v := hv
        rw [hlook] at hv'
        exact (Option.some.inj hv').symm
      have hnumv : v.isNumeric = true := by rw [hveq]; exact hnum
      refine ⟨hnumv, ?_, fun _ => hwide _, fun _ => hnarrow _, hdir _, ?_, ?_⟩
      · have hmap : dictGet (config.map (mutateEntry d (outliersOf d config))) k =
            some (mutateEntry d (outliersOf d config) (k, v)).2 :=
          dictGet_map_of_fst _ (mutateEntry_fst d _) config k v hv
        have hme : mutateEntry d (outliersOf d config) (k, v) =
            (k, randomize_value d (CfgPath.top k) v
              ((outliersOf d config).contains (CfgPath.top k))) :=
          mutateEntry_num d _ (k, v) hkns hnumv
        show dictGet (config.map (mutateEntry d (outliersOf d config))) k = _
        rw [hmap, hme]
      · intro hint
        simp [randomize_value, hint]
      · intro hint
        simp [randomize_value, hint]
    | param k =>
      rw [allNumericPaths, List.mem_append] at hp
      rcases hp with hp | hp
      swap
      · exact absurd hp (param_not_mem_topPaths config k)
      cases hpar : dictGet config "parameters" with
      | none =>
        exfalso
        have hnone : cfgValueAt config (CfgPath.param k) = Option.none := by
          simp [cfgValueAt, hpar]
        rw [hnone] at hv
        exact Option.noConfusion hv
      | some w =>
        cases w with
        | dict ps =>
          have hv' : dictGet ps k = some v := by
            have hred : cfgValueAt config (CfgPath.param k) = dictGet ps k := by
              simp [cfgValueAt, hpar]
            rwa [hred] at hv
          obtain ⟨pv, hmem, hfst, hnum⟩ := (mem_paramPaths config k ps hpar).mp hp
          have hlook : dictGet ps k = some pv.2 := by
            have h := dictGet_of_mem_nodup ps (hndp ps hpar) pv hmem
            rwa [hfst] at h
          have hveq : v = pv.2 := by
            rw [hlook] at hv'
            exact (Option.some.inj hv').symm
          have hnumv : v.isNumeric = true := by rw [hveq]; exact hnum
          refine ⟨hnumv, ?_, fun _ => hwide _, fun _ => hnarrow _, hdir _, ?_, ?_⟩
          · have hmapTop : dictGet (config.map (mutateEntry d (outliersOf d config)))
                "parameters" =
                some (mutateEntry d (outliersOf d config)
                  ("parameters", CVal.dict ps)).2 :=
              dictGet_map_of_fst _ (mutateEntry_fst d _) config "parameters"
                (CVal.dict ps) hpar
            have hmapTop2 : dictGet (config.map (mutateEntry d (outliersOf d config)))
                "parameters" =
                some (CVal.dict (ps.map (mutateParam d (outliersOf d config)))) := by
              rw [hmapTop, mutateEntry_param_dict]
            have hinner : dictGet (ps.map (mutateParam d (outliersOf d config))) k =
                some (mutateParam d (outliersOf d config) (k, v)).2 :=
              dictGet_map_of_fst _ (fun pv => (mutateParam_spec d _ pv).1) ps k v hv'
            have hmut : mutateParam d (outliersOf d config) (k, v) =
                (k, randomize_value d (CfgPath.param k) v
                  ((outliersOf d config).contains (CfgPath.param k))) :=
              (mutateParam_spec d _ (k, v)).2.2 hnumv
            have hred : cfgValueAt (randomize_config d config) (CfgPath.param k) =
                dictGet (ps.map (mutateParam d (outliersOf d config))) k := by
              show cfgValueAt (config.map (mutateEntry d (outliersOf d config)))
                (CfgPath.param k) = _
              simp only [cfgValueAt]
              rw [hmapTop2]
            rw [hred, hinner, hmut]
          · intro hint
            simp [randomize_value, hint]
          · intro hint
            simp [randomize_value, hint]
        | int n =>
          exfalso
          have hnone : cfgValueAt config (CfgPath.param k) = Option.none := by
            simp [cfgValueAt, hpar]
          rw [hnone] at hv
          exact Option.noConfusion hv
        | bool b =>
          exfalso
          have hnone : cfgValueAt config (CfgPath.param k) = Option.none := by
            simp [cfgValueAt, hpar]
          rw [hnone] at hv
          exact Option.noConfusion hv
        | float q =>
          exfalso
          have hnone : cfgValueAt config (CfgPath.param k) = Option.none := by
            simp [cfgValueAt, hpar]
          rw [hnone] at hv
          exact Option.noConfusion hv
        | other t =>
          exfalso
          have hnone : cfgValueAt config (CfgPath.param k) = Option.none := by
            simp [cfgValueAt, hpar]
          rw [hnone] at hv
          exact Option.noConfusion hv

/-- Witness for C9 at the concrete config and oracle. -/
theorem randomize_config_perturbation_witness :
    cfgValueAt (randomize_config drawsEx cfgEx) (CfgPath.top "a") =
      some (randomize_value drawsEx (CfgPath.top "a") (CVal.int 4)
        ((outliersOf drawsEx cfgEx).contains (CfgPath.top "a"))) := by
  have h := randomize_config_perturbation drawsEx cfgEx (by decide) (by decide)
    (fun _ => ⟨by decide, by decide, by decide⟩)
    (fun p => ⟨by norm_num [drawsEx], by norm_num [drawsEx]⟩)
    (fun p => ⟨by norm_num [drawsEx], by norm_num [drawsEx]⟩)
    (fun p => Or.inl rfl)
    (by decide)
    (by
      intro ps hps
      have h2 : CVal.dict [("m", CVal.float 3), ("s", CVal.other 0)] = CVal.dict ps :=
        Option.some.inj
          ((show dictGet cfgEx "parameters" =
              some (CVal.dict [("m", CVal.float 3), ("s", CVal.other 0)]) from rfl).symm.trans
            hps)
      rw [CVal.dict.injEq] at h2
      rw [← h2]
      decide)
  exact (h.2 (CfgPath.top "a") (by decide) (CVal.int 4) rfl).2.1

/-! ## C4 -/

/-- Python `max` over a seeded list: the result is the seed or a member, is
an upper bound of the seed, and an upper bound of all members. -/
lemma listMaxQ_spec (xs : List ℚ) : ∀ b : ℚ,
    (listMaxQ b xs = b ∨ listMaxQ b xs ∈ xs) ∧ b ≤ listMaxQ b xs ∧
      ∀ x ∈ xs, x ≤ listMaxQ b xs := by
  induction xs with
  | nil => exact fun b => ⟨Or.inl rfl, le_refl b, by simp⟩
  | cons x t ih =>
    intro b
    have h := ih (if x > b then x else b)
    refine ⟨?_, ?_, ?_⟩
    · simp only [listMaxQ]
      rcases h.1 with heq | hmem
      · rw [heq]
        by_cases hx : x > b
        · rw [if_pos hx]; exact Or.inr (List.mem_cons_self x t)
        · rw [if_neg hx]; exact Or.inl rfl
      · exact Or.inr (List.mem_cons_of_mem x hmem)
    · simp only [listMaxQ]
      refine le_trans ?_ h.2.1
      by_cases hx : x > b
      · rw [if_pos hx]; exact le_of_lt hx
      · rw [if_neg hx]
    · simp only [listMaxQ]
      intro y hy
      rcases List.mem_cons.mp hy with rfl | hyt
      · refine le_trans ?_ h.2.1
        by_cases hx : y > b
        · rw [if_pos hx]
        · rw [if_neg hx]; exact le_of_not_lt hx
      · exact h.2.2 y hyt

/-- C4 counterexample: the input rows for field `"h"` collect the values
`[2, non-coercible]`; `2` is numeric and `2 ≥ 1`, yet `validate_simulation`
returns `passed = false` with `calculated_value = None` — the non-coercible
entry is not discarded, it aborts the whole validation through the `except`
branch. -/
theorem validate_simulation_counterexample :
    ([[("h", PyVal.num 2)], [("h", PyVal.txt Option.none)]].filterMap
        (fun point => rowGet point "h")) = [PyVal.num 2, PyVal.txt Option.none] ∧
    pyFloat (PyVal.num 2) = some 2 ∧ (1 : ℚ) ≤ 2 ∧
    (validate_simulation "h" (PyVal.num 1)
      [[("h", PyVal.num 2)], [("h", PyVal.txt Option.none)]]).passed = false ∧
    (validate_simulation "h" (PyVal.num 1)
      [[("h", PyVal.num 2)], [("h", PyVal.txt Option.none)]]).calculated_value =
      Option.none :=
  ⟨rfl, rfl, by norm_num, rfl, rfl⟩

/-- C4 (amended): for every input whose collected `field_name` values
(`None` entries discarded) all coerce to numbers, if at least one coerced
value reaches `target_value` then `validate_simulation` passes and
`calculated_value` is the maximum coerced value, the boundary `≥` being
inclusive.  (A non-`None` non-coercible entry instead fails the whole
validation, per the counterexample.) -/
theorem validate_simulation_pass (field : String) (tq : ℚ)
    (rows : List (List (String × PyVal))) (nums : List ℚ)
    (hco : coerceAll (rows.filterMap (fun point => rowGet point field)) = some nums)
    (hex : ∃ q ∈ nums, tq ≤ q) :
    (validate_simulation field (PyVal.num tq) rows).passed = true ∧
    ∃ m, (validate_simulation field (PyVal.num tq) rows).calculated_value = some m ∧
      m ∈ nums ∧ (∀ q ∈ nums, q ≤ m) ∧ tq ≤ m := by
  obtain ⟨q0, hq0, htq⟩ := hex
  obtain ⟨n0, ns, rfl⟩ : ∃ n0 ns, nums = n0 :: ns := by
    cases nums with
    | nil => simp at hq0
    | cons a t => exact ⟨a, t, rfl⟩
  have hvalsne : (rows.filterMap (fun point => rowGet point field)).isEmpty = false := by
    cases hvals : rows.filterMap (fun point => rowGet point field) with
    | nil => rw [hvals] at hco; simp [coerceAll] at hco
    | cons a t => simp
  have hspec := listMaxQ_spec ns n0
  have hmem : listMaxQ n0 ns ∈ n0 :: ns := by
    rcases hspec.1 with heq | hm
    · rw [heq]; exact List.mem_cons_self n0 ns
    · exact List.mem_cons_of_mem n0 hm
  have hub : ∀ q ∈ n0 :: ns, q ≤ listMaxQ n0 ns := by
    intro q hq
    rcases List.mem_cons.mp hq with rfl | hq
    · exact hspec.2.1
    · exact hspec.2.2 q hq
  have hmax : tq ≤ listMaxQ n0 ns := le_trans htq (hub q0 hq0)
  simp only [validate_simulation, hvalsne, Bool.false_eq_true, if_false, hco, pyFloat]
  exact ⟨decide_eq_true hmax, listMaxQ n0 ns, rfl, hmem, hub, hmax⟩

/-- Witness for C4 (amended), with a `None` entry discarded, an absent-field
row skipped, and a value exactly equal to the target (inclusive boundary). -/
theorem validate_simulation_pass_witness :
    (validate_simulation "h" (PyVal.num 2)
      [[("h", PyVal.num 2)], [("t", PyVal.num 9)], [("h", PyVal.pynull)],
       [("h", PyVal.num 1)]]).passed = true ∧
    ∃ m, (validate_simulation "h" (PyVal.num 2)
      [[("h", PyVal.num 2)], [("t", PyVal.num 9)], [("h", PyVal.pynull)],
       [("h", PyVal.num 1)]]).calculated_value = some m ∧
      m ∈ [(2 : ℚ), 1] ∧ (∀ q ∈ [(2 : ℚ), 1], q ≤ m) ∧ (2 : ℚ) ≤ m :=
  validate_simulation_pass "h" 2
    [[("h", PyVal.num 2)], [("t", PyVal.num 9)], [("h", PyVal.pynull)],
     [("h", PyVal.num 1)]] [2, 1] rfl ⟨2, by simp, le_refl 2⟩

/-! ## C3 -/

/-- The head of a first-max decomposition is bounded by the maximum. -/
lemma head_le_of_decomp (f : Rec → ℚ) (b : Rec) (xs pre suf : List Rec) (m : Rec)
    (hdec : b :: xs = pre ++ m :: suf) (hpre : ∀ r ∈ pre, f r < f m) :
    f b ≤ f m := by
  cases pre with
  | nil =>
    injection hdec with h1 _
    rw [h1]
  | cons p pre1 =>
    rw [List.cons_append] at hdec
    injection hdec with h1 _
    exact le_of_lt (h1 ▸ hpre p (List.mem_cons_self p pre1))

/-- Python `max(key=f)` returns the first element attaining the maximum key:
the scanned list splits as `pre ++ best :: suf` with every earlier key
strictly below and every later key at most the best key. -/
lemma pyMaxBy_spec (f : Rec → ℚ) : ∀ (xs : List Rec) (b : Rec),
    ∃ pre suf, b :: xs = pre ++ (pyMaxBy f b xs) :: suf ∧
      (∀ r ∈ pre, f r < f (pyMaxBy f b xs)) ∧
      (∀ r ∈ suf, f r ≤ f (pyMaxBy f b xs)) := by
  intro xs
  induction xs with
  | nil => exact fun b => ⟨[], [], rfl, by simp, by simp⟩
  | cons x t ih =>
    intro b
    by_cases hx : f x > f b
    · have hstep : pyMaxBy f b (x :: t) = pyMaxBy f x t := by
        simp only [pyMaxBy, if_pos hx]
      rw [hstep]
      obtain ⟨pre1, suf1, hdec, hpre1, hsuf1⟩ := ih x
      have hxle : f x ≤ f (pyMaxBy f x t) := head_le_of_decomp f x t pre1 suf1 _ hdec hpre1
      refine ⟨b :: pre1, suf1, ?_, ?_, hsuf1⟩
      · rw [List.cons_append, ← hdec]
      · intro r hr
        rcases List.mem_cons.mp hr with rfl | hr
        · exact lt_of_lt_of_le hx hxle
        · exact hpre1 r hr
    · have hstep : pyMaxBy f b (x :: t) = pyMaxBy f b t := by
        simp only [pyMaxBy, if_neg hx]
      rw [hstep]
      obtain ⟨pre1, suf1, hdec, hpre1, hsuf1⟩ := ih b
      cases pre1 with
      | nil =>
        injection hdec with h1 h2
        refine ⟨[], x :: suf1, ?_, by simp, ?_⟩
        · rw [List.nil_append, ← h1, ← h2]
        · intro r hr
          rcases List.mem_cons.mp hr with rfl | hr
          · rw [← h1]
            exact le_of_not_lt hx
          · exact hsuf1 r hr
      | cons p pre1' =>
        rw [List.cons_append] at hdec
        injection hdec with hbp ht
        have hbm : f b < f (pyMaxBy f b t) :=
          hbp ▸ hpre1 p (List.mem_cons_self p pre1')
        refine ⟨b :: x :: pre1', suf1, ?_, ?_, hsuf1⟩
        · simp only [List.cons_append]
          rw [← ht]
        · intro r hr
          rcases List.mem_cons.mp hr with rfl | hr
          · exact hbm
          · rcases List.mem_cons.mp hr with rfl | hr
            · exact lt_of_le_of_lt (le_of_not_lt hx) hbm
            · exact hpre1 r (List.mem_cons_of_mem p hr)

/-- First-match characterization of `find?` on a split list. -/
lemma find?_first (p : Rec → Bool) (pre : List Rec) (q : Rec) (suf : List Rec)
    (hq : p q = true) (hpre : ∀ r ∈ pre, p r = false) :
    (pre ++ q :: suf).find? p = some q := by
  induction pre with
  | nil => exact List.find?_cons_of_pos _ hq
  | cons a rest ih =>
    rw [List.cons_append, List.find?_cons_of_neg _ (by simp [hpre a (List.mem_cons_self a rest)])]
    exact ih (fun r hr => hpre r (List.mem_cons_of_mem a hr))

/-- C3: on a non-empty family list, `get_family_result` selects: when a
passing member exists, the first passing member with maximal
`validation_calculated_value` (missing/`None` values counting as `0`),
annotated `family_passed=true` with the total and passing counts and
`is_variant` true iff the winner's key contains `"_gen_"`; otherwise the
first member whose key lacks `"_gen_"` (the whole list in order having none
before it), or the very first member when all carry `"_gen_"`, annotated
`family_passed=false`, `family_passed_count=0`, `is_variant=false`. -/
theorem get_family_result_spec (r0 : Rec) (rest : List Rec) :
    (∀ p0 ps,
      (r0 :: rest).filter (fun r => r.validation_passed == some true) = p0 :: ps →
      ∃ pre suf b,
        get_family_result (r0 :: rest) = some
          { best := b
            family_passed := true
            family_total_runs := (r0 :: rest).length
            family_passed_count := (p0 :: ps).length
            is_variant := hasGen b.message_key } ∧
        p0 :: ps = pre ++ b :: suf ∧
        (∀ r ∈ pre, recValue r < recValue b) ∧
        (∀ r ∈ suf, recValue r ≤ recValue b) ∧
        b ∈ p0 :: ps ∧ (∀ r ∈ p0 :: ps, recValue r ≤ recValue b)) ∧
    ((r0 :: rest).filter (fun r => r.validation_passed == some true) = [] →
      ∃ b, get_family_result (r0 :: rest) = some
          { best := b
            family_passed := false
            family_total_runs := (r0 :: rest).length
            family_passed_count := 0
            is_variant := false } ∧
        ((∀ r ∈ r0 :: rest, hasGen r.message_key = true) → b = r0) ∧
        (∀ pre q suf, r0 :: rest = pre ++ q :: suf → hasGen q.message_key = false →
          (∀ r ∈ pre, hasGen r.message_key = true) → b = q)) := by
  constructor
  · intro p0 ps hfilter
    obtain ⟨pre, suf, hdec, hpre, hsuf⟩ := pyMaxBy_spec recValue ps p0
    refine ⟨pre, suf, pyMaxBy recValue p0 ps, ?_, hdec, hpre, hsuf, ?_, ?_⟩
    · simp only [get_family_result]
      rw [hfilter]
    · rw [hdec]
      exact List.mem_append_right pre (List.mem_cons_self _ suf)
    · intro r hr
      rw [hdec] at hr
      rcases List.mem_append.mp hr with hr | hr
      · exact le_of_lt (hpre r hr)
      · rcases List.mem_cons.mp hr with rfl | hr
        · exact le_refl _
        · exact hsuf r hr
  · intro hfilter
    refine ⟨((r0 :: rest).find? (fun r => ! hasGen r.message_key)).getD r0, ?_, ?_, ?_⟩
    · simp only [get_family_result]
      rw [hfilter]
    · intro hall
      have hnone : (r0 :: rest).find? (fun r => ! hasGen r.message_key) = Option.none := by
        rw [List.find?_eq_none]
        intro x hx
        simp [hall x hx]
      rw [hnone]
      rfl
    · intro pre q suf hdec hq hpre
      have hfound : (r0 :: rest).find? (fun r => ! hasGen r.message_key) = some q := by
        rw [hdec]
        exact find?_first _ pre q suf (by simp [hq]) (fun r hr => by simp [hpre r hr])
      rw [hfound]
      rfl

/-- Witness for C3: the family `{R: fail 0.5, R_gen_1: pass 0.9, R_gen_2:
pass 1.2}` resolves to `R_gen_2` with 2 of 3 passing, a variant. -/
theorem get_family_result_spec_witness :
    (∃ pre suf b,
      get_family_result [recRoot, recG1, recG2] = some
        { best := b
          family_passed := true
          family_total_runs := 3
          family_passed_count := 2
          is_variant := hasGen b.message_key } ∧
      [recG1, recG2] = pre ++ b :: suf ∧
      (∀ r ∈ pre, recValue r < recValue b) ∧
      (∀ r ∈ suf, recValue r ≤ recValue b) ∧
      b ∈ [recG1, recG2] ∧ (∀ r ∈ [recG1, recG2], recValue r ≤ recValue b)) ∧
    get_family_result [recRoot, recG1, recG2] = some
      { best := recG2
        family_passed := true
        family_total_runs := 3
        family_passed_count := 2
        is_variant := true } :=
  ⟨(get_family_result_spec recRoot [recG1, recG2]).1 recG1 [recG2] rfl, by decide⟩

/-! ## C5 -/

/-- A positive `startswith` exposes the pattern as a prefix. -/
lemma chrStartsWith_ex : ∀ (pat s : List Char), chrStartsWith s pat = true →
    ∃ r, s = pat ++ r := by
  intro pat
  induction pat with
  | nil => exact fun s _ => ⟨s, rfl⟩
  | cons p ps ih =>
    intro s h
    cases s with
    | nil => simp [chrStartsWith] at h
    | cons c cs =>
      simp only [chrStartsWith, Bool.and_eq_true, beq_iff_eq] at h
      obtain ⟨r, hr⟩ := ih cs h.2
      exact ⟨r, by rw [List.cons_append, ← hr, h.1]⟩

/-- The last-occurrence index found by `genLastIdx` is a real occurrence. -/
lemma genLastIdx_split : ∀ (l : List Char) (i : Nat), genLastIdx l = some i →
    chrStartsWith (l.drop i) genPat = true := by
  intro l
  induction l with
  | nil => intro i h; simp [genLastIdx] at h
  | cons c cs ih =>
    intro i h
    simp only [genLastIdx] at h
    cases hg : genLastIdx cs with
    | some j =>
      rw [hg] at h
      replace h : some (j + 1) = some i := h
      injection h with h
      subst h
      simpa [List.drop_succ_cons] using ih j hg
    | none =>
      rw [hg] at h
      replace h : (if chrStartsWith (c :: cs) genPat then some 0 else Option.none) =
          some i := h
      split at h
      case isTrue hsw =>
        injection h with h
        subst h
        simpa using hsw
      case isFalse => exact Option.noConfusion h

/-- When `"_gen_"` occurs in `K`, `K` decomposes as
`baseKey K ++ "_gen_" ++ suffix`. -/
lemma baseKey_decomp (K : String) (h : hasGen K = true) :
    ∃ suf : String, K = baseKey K ++ "_gen_" ++ suf := by
  unfold hasGen at h
  cases hg : genLastIdx K.toList with
  | none => rw [hg] at h; simp at h
  | some i =>
    obtain ⟨r, hr⟩ := chrStartsWith_ex genPat (K.toList.drop i) (genLastIdx_split K.toList i hg)
    refine ⟨String.mk r, ?_⟩
    have hbk : baseKey K = String.mk (K.toList.take i) := by
      unfold baseKey
      rw [hg]
    rw [hbk]
    have hK : K = String.mk K.toList := by cases K; rfl
    conv_lhs => rw [hK]
    rw [show ("_gen_" : String) = String.mk genPat from rfl,
      show ∀ a b : List Char, String.mk a ++ String.mk b = String.mk (a ++ b)
        from fun a b => rfl,
      show ∀ a b : List Char, String.mk a ++ String.mk b = String.mk (a ++ b)
        from fun a b => rfl]
    congr 1
    conv_lhs => rw [← List.take_append_drop i K.toList, hr]
    rw [List.append_assoc]

/-- Without an occurrence of `"_gen_"`, the base key is the key itself. -/
lemma baseKey_of_no_gen (K : String) (h : hasGen K = false) : baseKey K = K := by
  unfold hasGen at h
  unfold baseKey
  cases hg : genLastIdx K.toList with
  | none => rfl
  | some i => rw [hg] at h; simp at h

/-- The guarded base-key expression of the source equals `baseKey`. -/
lemma ite_baseKey (K : String) : (if hasGen K then baseKey K else K) = baseKey K := by
  cases h : hasGen K
  · rw [if_neg (by simp [h]), baseKey_of_no_gen K h]
  · rw [if_pos (by simp [h])]

/-- Inserting permutes with consing. -/
lemma insertLe_perm (le : Rec → Rec → Bool) (x : Rec) :
    ∀ l : List Rec, (insertLe le x l).Perm (x :: l) := by
  intro l
  induction l with
  | nil => exact List.Perm.refl _
  | cons y ys ih =>
    unfold insertLe
    by_cases h : le y x = true
    · rw [if_pos h]
      exact (ih.cons y).trans (List.Perm.swap x y ys)
    · rw [if_neg h]

/-- The insertion sort permutes its input. -/
lemma insSort_perm (le : Rec → Rec → Bool) :
    ∀ l : List Rec, (insSort le l).Perm l := by
  intro l
  induction l with
  | nil => exact List.Perm.refl _
  | cons x xs ih =>
    unfold insSort
    exact ((insertLe_perm le x (insSort le xs)).trans (ih.cons x))

/-- Inserting into a sorted list keeps it sorted, for a total transitive
comparison. -/
lemma insertLe_sorted (le : Rec → Rec → Bool)
    (htrans : ∀ a b c, le a b = true → le b c = true → le a c = true)
    (htot : ∀ a b, le a b = true ∨ le b a = true) (x : Rec) :
    ∀ l, l.Pairwise (fun a b => le a b = true) →
      (insertLe le x l).Pairwise (fun a b => le a b = true) := by
  intro l
  induction l with
  | nil => exact fun _ => List.pairwise_singleton _ x
  | cons y ys ih =>
    intro hp
    rw [List.pairwise_cons] at hp
    unfold insertLe
    by_cases h : le y x = true
    · rw [if_pos h]
      rw [List.pairwise_cons]
      constructor
      · intro a ha
        have ha2 : a ∈ x :: ys := (insertLe_perm le x ys).mem_iff.mp ha
        rcases List.mem_cons.mp ha2 with rfl | ha3
        · exact h
        · exact hp.1 a ha3
      · exact ih hp.2
    · rw [if_neg h]
      rw [List.pairwise_cons]
      constructor
      · intro a ha
        rcases List.mem_cons.mp ha with rfl | ha2
        · rcases htot x a with hxy | hyx
          · exact hxy
          · exact absurd hyx h
        · rcases htot x y with hxy | hyx
          · exact htrans x y a hxy (hp.1 a ha2)
          · exact absurd hyx h
      · exact List.pairwise_cons.mpr hp

/-- The insertion sort sorts, for a total transitive comparison. -/
lemma insSort_sorted (le : Rec → Rec → Bool)
    (htrans : ∀ a b c, le a b = true → le b c = true → le a c = true)
    (htot : ∀ a b, le a b = true ∨ le b a = true) :
    ∀ l : List Rec, (insSort le l).Pairwise (fun a b => le a b = true) := by
  intro l
  induction l with
  | nil => simp [insSort]
  | cons x xs ih =>
    unfold insSort
    exact insertLe_sorted le htrans htot x _ ih

/-- Lexicographic character comparison is total. -/
lemma chrLe_total : ∀ a b : List Char, chrLe a b = true ∨ chrLe b a = true := by
  intro a
  induction a with
  | nil => intro b; left; rfl
  | cons x xs ih =>
    intro b
    cases b with
    | nil => right; rfl
    | cons y ys =>
      by_cases hxy : x = y
      · subst hxy
        have h1 : chrLe (x :: xs) (x :: ys) = chrLe xs ys := by simp [chrLe]
        have h2 : chrLe (x :: ys) (x :: xs) = chrLe ys xs := by simp [chrLe]
        rw [h1, h2]
        exact ih ys
      · have hb1 : (x == y) = false := by simp [hxy]
        have hb2 : (y == x) = false := by simp [Ne.symm hxy]
        rcases lt_or_gt_of_ne hxy with hlt | hgt
        · left
          simp [chrLe, hb1, hlt]
        · right
          simp [chrLe, hb2, hgt]

/-- Lexicographic character comparison is transitive. -/
lemma chrLe_trans : ∀ a b c : List Char,
    chrLe a b = true → chrLe b c = true → chrLe a c = true := by
  intro a
  induction a with
  | nil => intro b c _ _; rfl
  | cons x xs ih =>
    intro b c hab hbc
    cases b with
    | nil => simp [chrLe] at hab
    | cons y ys =>
      cases c with
      | nil => simp [chrLe] at hbc
      | cons z zs =>
        by_cases hxy : x = y
        · subst hxy
          have hab2 : chrLe xs ys = true := by simpa [chrLe] using hab
          by_cases hxz : x = z
          · subst hxz
            have hbc2 : chrLe ys zs = true := by simpa [chrLe] using hbc
            simpa [chrLe] using ih ys zs hab2 hbc2
          · have hlt : x < z := by
              have hbc3 := hbc
              simp [chrLe, show (x == z) = false by simp [hxz]] at hbc3
              exact hbc3
            simp [chrLe, show (x == z) = false by simp [hxz], hlt]
        · have hlt1 : x < y := by
            have hab3 := hab
            simp [chrLe, show (x == y) = false by simp [hxy]] at hab3
            exact hab3
          by_cases hyz : y = z
          · subst hyz
            simp [chrLe, show (x == y) = false by simp [hxy], hlt1]
          · have hlt2 : y < z := by
              have hbc3 := hbc
              simp [chrLe, show (y == z) = false by simp [hyz]] at hbc3
              exact hbc3
            have hxz : x < z := lt_trans hlt1 hlt2
            simp [chrLe, show (x == z) = false by simp [ne_of_lt hxz], hxz]

/-- The record comparison used by the local store sort is transitive. -/
lemma recKeyLe_trans : ∀ a b c : Rec,
    recKeyLe a b = true → recKeyLe b c = true → recKeyLe a c = true :=
  fun a b c hab hbc =>
    chrLe_trans a.message_key.toList b.message_key.toList c.message_key.toList hab hbc

/-- The record comparison used by the local store sort is total. -/
lemma recKeyLe_total : ∀ a b : Rec, recKeyLe a b = true ∨ recKeyLe b a = true :=
  fun a b => chrLe_total a.message_key.toList b.message_key.toList

/-- Filtering pairs on the stored key then projecting equals projecting then
filtering on the record key, when each record carries its stored key. -/
lemma filter_map_snd (P : String → Bool) (store : List (String × Rec))
    (hk : ∀ p ∈ store, p.2.message_key = p.1) :
    (store.filter (fun p => P p.1)).map (fun p => p.2) =
      (store.map (fun p => p.2)).filter (fun r => P r.message_key) := by
  induction store with
  | nil => rfl
  | cons a rest ih =>
    have ha : a.2.message_key = a.1 := hk a (List.mem_cons_self a rest)
    have ih2 := ih (fun p hp => hk p (List.mem_cons_of_mem a hp))
    simp only [List.filter_cons, List.map_cons, ha]
    cases hP : P a.1 with
    | false => simpa [hP] using ih2
    | true => simp [hP, ih2]

/-- C5: for every member key `K` and persisted store, the derived base key
splits `K` at the last `"_gen_"` occurrence (or is `K` itself), and the
reconstructed family is a permutation of exactly the persisted records whose
key equals `baseKey K` or starts with `baseKey K ++ "_gen_"`, returned
sorted in ascending lexical key order. -/
theorem local_get_related_runs_spec (store : List (String × Rec)) (K : String)
    (hk : ∀ p ∈ store, p.2.message_key = p.1) :
    (hasGen K = true → ∃ suf : String, K = baseKey K ++ "_gen_" ++ suf) ∧
    (hasGen K = false → baseKey K = K) ∧
    (localStore_get_related_runs store K).Perm
      ((store.map (fun p => p.2)).filter (fun r =>
        r.message_key == baseKey K ||
          strStartsWith r.message_key (baseKey K ++ "_gen_"))) ∧
    (localStore_get_related_runs store K).Pairwise
      (fun a b => strLe a.message_key b.message_key = true) := by
  refine ⟨baseKey_decomp K, baseKey_of_no_gen K, ?_, ?_⟩
  · unfold localStore_get_related_runs
    rw [ite_baseKey]
    refine (insSort_perm recKeyLe _).trans ?_
    rw [filter_map_snd
      (fun s => s == baseKey K || strStartsWith s (baseKey K ++ "_gen_")) store hk]
  · unfold localStore_get_related_runs
    exact insSort_sorted recKeyLe recKeyLe_trans recKeyLe_total _

/-- Witness for C5: resolving the scrambled store from `"R_gen_1"` returns
the `R` family sorted `R, R_gen_1, R_gen_2`, excluding `X`. -/
theorem local_get_related_runs_spec_witness :
    (localStore_get_related_runs storeEx "R_gen_1").Perm
      ((storeEx.map (fun p => p.2)).filter (fun r =>
        r.message_key == baseKey "R_gen_1" ||
          strStartsWith r.message_key (baseKey "R_gen_1" ++ "_gen_"))) ∧
    localStore_get_related_runs storeEx "R_gen_1" = [recRoot, recG1, recG2] :=
  ⟨(local_get_related_runs_spec storeEx "R_gen_1" (by decide)).2.2.1, by decide⟩

/-! ## C6 -/

/-- Unfolding of the retry loop on a raising attempt. -/
lemma queryAttempts_err (storage : Nat → QueryOutcome) (a f : Nat)
    (h : storage a = QueryOutcome.err) :
    queryAttempts storage a (f + 1) =
      ((queryAttempts storage (a + 1) f).1, (queryAttempts storage (a + 1) f).2 + 1) := by
  simp only [queryAttempts]
  rw [h]

/-- Unfolding of the retry loop on an empty result: also retried. -/
lemma queryAttempts_ok_empty (storage : Nat → QueryOutcome) (a f : Nat)
    (h : storage a = QueryOutcome.ok []) :
    queryAttempts storage a (f + 1) =
      ((queryAttempts storage (a + 1) f).1, (queryAttempts storage (a + 1) f).2 + 1) := by
  simp only [queryAttempts]
  rw [h]
  rfl

/-- Unfolding of the retry loop on a non-empty result: returned at once. -/
lemma queryAttempts_ok_ne (storage : Nat → QueryOutcome) (a f : Nat)
    (rows : List Rec) (h : storage a = QueryOutcome.ok rows)
    (hne : rows.isEmpty = false) :
    queryAttempts storage a (f + 1) = (some rows, 1) := by
  cases rows with
  | nil => simp at hne
  | cons r rs =>
    simp only [queryAttempts]
    rw [h]
    rfl

/-- All-raising attempts exhaust the whole retry budget and find nothing. -/
lemma queryAttempts_all_err (storage : Nat → QueryOutcome) :
    ∀ (fuel attempt : Nat),
      (∀ n, attempt ≤ n → n < attempt + fuel → storage n = QueryOutcome.err) →
      queryAttempts storage attempt fuel = (Option.none, fuel) := by
  intro fuel
  induction fuel with
  | zero => intro a _; rfl
  | succ f ih =>
    intro a h
    rw [queryAttempts_err storage a f (h a (le_refl a) (by omega)),
      ih (a + 1) (fun n h1 h2 => h n (by omega) (by omega))]

/-- All-empty attempts also exhaust the whole retry budget and find nothing. -/
lemma queryAttempts_all_empty (storage : Nat → QueryOutcome) :
    ∀ (fuel attempt : Nat),
      (∀ n, attempt ≤ n → n < attempt + fuel → storage n = QueryOutcome.ok []) →
      queryAttempts storage attempt fuel = (Option.none, fuel) := by
  intro fuel
  induction fuel with
  | zero => intro a _; rfl
  | succ f ih =>
    intro a h
    rw [queryAttempts_ok_empty storage a f (h a (le_refl a) (by omega)),
      ih (a + 1) (fun n h1 h2 => h n (by omega) (by omega))]

/-- Unfolded form of `get_related_runs` with the base key normalized. -/
lemma get_related_runs_eq (storage : Nat → QueryOutcome) (now : ℚ) (cache : Cache)
    (K : String) :
    get_related_runs storage now cache K =
      match cacheLookup cache ("related:" ++ baseKey K) with
      | some e =>
        if now - e.1 < CACHE_TTL then ⟨e.2, cache, 0⟩
        else
          match queryAttempts storage 0 (MAX_RETRIES + 1) with
          | (some rows, n) => ⟨rows, ("related:" ++ baseKey K, (now, rows)) :: cache, n⟩
          | (Option.none, n) => ⟨[], cache, n⟩
      | Option.none =>
        match queryAttempts storage 0 (MAX_RETRIES + 1) with
        | (some rows, n) => ⟨rows, ("related:" ++ baseKey K, (now, rows)) :: cache, n⟩
        | (Option.none, n) => ⟨[], cache, n⟩ := by
  unfold get_related_runs
  rw [ite_baseKey]

/-- C6 counterexample: with an empty cache, four raising attempts and four
empty-result attempts produce the very same `FetchResult` — empty rows, an
unchanged cache, four storage calls — and the same not-found family result;
the caller cannot tell a hard storage error from an empty family. -/
theorem get_related_runs_error_counterexample :
    get_related_runs (fun _ => QueryOutcome.err) 0 [] "R" =
      get_related_runs (fun _ => QueryOutcome.ok []) 0 [] "R" ∧
    (get_related_runs (fun _ => QueryOutcome.err) 0 [] "R").rows = [] ∧
    get_family_result (get_related_runs (fun _ => QueryOutcome.err) 0 [] "R").rows =
      Option.none :=
  ⟨rfl, rfl, rfl⟩

/-- C6 (amended): after exhausting the retry budget (`MAX_RETRIES = 3`
additional attempts), a hard storage error yields exactly the outcome of an
empty (not-found) family — empty rows, untouched cache, `MAX_RETRIES + 1`
storage calls — so the two are indistinguishable to the caller. -/
theorem get_related_runs_error_indistinct (storageErr storageEmpty : Nat → QueryOutcome)
    (now now2 : ℚ) (cache : Cache) (K : String)
    (herr : ∀ n, n ≤ MAX_RETRIES → storageErr n = QueryOutcome.err)
    (hempty : ∀ n, n ≤ MAX_RETRIES → storageEmpty n = QueryOutcome.ok [])
    (hmiss : cacheLookup cache ("related:" ++ baseKey K) = Option.none) :
    get_related_runs storageErr now cache K = ⟨[], cache, MAX_RETRIES + 1⟩ ∧
    get_related_runs storageEmpty now2 cache K = ⟨[], cache, MAX_RETRIES + 1⟩ ∧
    get_related_runs storageErr now cache K =
      get_related_runs storageEmpty now2 cache K := by
  have hqe : queryAttempts storageErr 0 (MAX_RETRIES + 1) =
      (Option.none, MAX_RETRIES + 1) :=
    queryAttempts_all_err storageErr (MAX_RETRIES + 1) 0
      (fun n _ h2 => herr n (by omega))
  have hqm : queryAttempts storageEmpty 0 (MAX_RETRIES + 1) =
      (Option.none, MAX_RETRIES + 1) :=
    queryAttempts_all_empty storageEmpty (MAX_RETRIES + 1) 0
      (fun n _ h2 => hempty n (by omega))
  have h1 : get_related_runs storageErr now cache K = ⟨[], cache, MAX_RETRIES + 1⟩ := by
    rw [get_related_runs_eq, hmiss, hqe]
  have h2 : get_related_runs storageEmpty now2 cache K =
      ⟨[], cache, MAX_RETRIES + 1⟩ := by
    rw [get_related_runs_eq, hmiss, hqm]
  exact ⟨h1, h2, h1.trans h2.symm⟩

/-- Witness for C6 (amended) at a concrete cache and key. -/
theorem get_related_runs_error_indistinct_witness :
    get_related_runs (fun _ => QueryOutcome.err) 0 [] "R" = ⟨[], [], MAX_RETRIES + 1⟩ ∧
    get_related_runs (fun _ => QueryOutcome.ok []) 5 [] "R" =
      ⟨[], [], MAX_RETRIES + 1⟩ ∧
    get_related_runs (fun _ => QueryOutcome.err) 0 [] "R" =
      get_related_runs (fun _ => QueryOutcome.ok []) 5 [] "R" :=
  get_related_runs_error_indistinct (fun _ => QueryOutcome.err)
    (fun _ => QueryOutcome.ok []) 0 5 [] "R" (fun _ _ => rfl) (fun _ _ => rfl) rfl

/-! ## C7 -/

/-- A found result of the retry loop is non-empty and took at least one
storage call. -/
lemma queryAttempts_some_ne (storage : Nat → QueryOutcome) :
    ∀ (fuel attempt : Nat) (rows : List Rec) (n : Nat),
      queryAttempts storage attempt fuel = (some rows, n) →
      rows ≠ [] ∧ 1 ≤ n := by
  intro fuel
  induction fuel with
  | zero =>
    intro a rows n h
    exact absurd h (by simp [queryAttempts])
  | succ f ih =>
    intro a rows n h
    cases hs : storage a with
    | err =>
      rw [queryAttempts_err storage a f hs] at h
      cases hq : queryAttempts storage (a + 1) f with
      | mk o m =>
        rw [hq] at h
        simp only [Prod.mk.injEq] at h
        obtain ⟨ho, hn⟩ := h
        have hrec := ih (a + 1) rows m (by rw [hq, ho])
        exact ⟨hrec.1, by omega⟩
    | ok rs =>
      by_cases he : rs.isEmpty = true
      · have hrs : rs = [] := by simpa using he
        subst hrs
        rw [queryAttempts_ok_empty storage a f hs] at h
        cases hq : queryAttempts storage (a + 1) f with
        | mk o m =>
          rw [hq] at h
          simp only [Prod.mk.injEq] at h
          obtain ⟨ho, hn⟩ := h
          have hrec := ih (a + 1) rows m (by rw [hq, ho])
          exact ⟨hrec.1, by omega⟩
      · rw [queryAttempts_ok_ne storage a f rs hs (by simpa using he)] at h
        simp only [Prod.mk.injEq] at h
        obtain ⟨ho, hn⟩ := h
        injection ho with ho
        constructor
        · rw [← ho]
          intro hcon
          rw [hcon] at he
          exact he rfl
        · omega

/-- The retry loop with positive fuel issues at least one storage call. -/
lemma queryAttempts_pos (storage : Nat → QueryOutcome) (a f : Nat) :
    1 ≤ (queryAttempts storage a (f + 1)).2 := by
  cases hs : storage a with
  | err =>
    rw [queryAttempts_err storage a f hs]
    omega
  | ok rs =>
    by_cases he : rs.isEmpty = true
    · have hrs : rs = [] := by simpa using he
      subst hrs
      rw [queryAttempts_ok_empty storage a f hs]
      omega
    · rw [queryAttempts_ok_ne storage a f rs hs (by simpa using he)]

/-- A fresh insert is the first binding its key finds. -/
lemma cacheLookup_cons_self (ck : String) (e : ℚ × List Rec) (cache : Cache) :
    cacheLookup ((ck, e) :: cache) ck = some e := by
  unfold cacheLookup
  rw [List.find?_cons_of_pos _ (by simp)]
  rfl

/-- A fresh cache hit is served as-is with zero storage calls. -/
lemma get_related_runs_hit (storage : Nat → QueryOutcome) (now : ℚ) (cache : Cache)
    (K : String) (e : ℚ × List Rec)
    (hl : cacheLookup cache ("related:" ++ baseKey K) = some e)
    (hfresh : now - e.1 < CACHE_TTL) :
    get_related_runs storage now cache K = ⟨e.2, cache, 0⟩ := by
  rw [get_related_runs_eq, hl]
  exact if_pos hfresh

/-- C7: the resolver cache only ever holds non-empty family results.  An
empty outcome (cache hit on nothing to do, or exhausted retries) leaves the
cache untouched, so the next call re-queries storage; a cache miss always
issues at least one storage query; a non-empty fetched result is inserted at
the current clock immediately; a fresh cached entry is served with zero
storage queries; and after a successful fetch, any call within the TTL on a
key with the same base is answered from the cache with zero storage queries. -/
theorem cache_policy_spec (storage : Nat → QueryOutcome) (now : ℚ) (cache : Cache)
    (K : String) (fr : FetchResult)
    (hfr : fr = get_related_runs storage now cache K) :
    ((∀ e ∈ cache, e.2.2 ≠ ([] : List Rec)) → ∀ e ∈ fr.cache, e.2.2 ≠ []) ∧
    (fr.rows = [] → fr.cache = cache) ∧
    (cacheLookup cache ("related:" ++ baseKey K) = Option.none → fr.rows ≠ [] →
      cacheLookup fr.cache ("related:" ++ baseKey K) = some (now, fr.rows)) ∧
    (cacheLookup cache ("related:" ++ baseKey K) = Option.none → 1 ≤ fr.storageCalls) ∧
    (∀ t data, cacheLookup cache ("related:" ++ baseKey K) = some (t, data) →
      now - t < CACHE_TTL → fr = ⟨data, cache, 0⟩) ∧
    (cacheLookup cache ("related:" ++ baseKey K) = Option.none → fr.rows ≠ [] →
      ∀ (storage2 : Nat → QueryOutcome) (now2 : ℚ) (K2 : String),
        baseKey K2 = baseKey K → now2 - now < CACHE_TTL →
        get_related_runs storage2 now2 fr.cache K2 = ⟨fr.rows, fr.cache, 0⟩) := by
  rw [get_related_runs_eq] at hfr
  cases hl : cacheLookup cache ("related:" ++ baseKey K) with
  | some e =>
    rw [hl] at hfr
    replace hfr : fr =
        (if now - e.1 < CACHE_TTL then (⟨e.2, cache, 0⟩ : FetchResult)
         else
          match queryAttempts storage 0 (MAX_RETRIES + 1) with
          | (some rows, n) =>
            ⟨rows, ("related:" ++ baseKey K, (now, rows)) :: cache, n⟩
          | (Option.none, n) => ⟨[], cache, n⟩) := hfr
    by_cases hfresh : now - e.1 < CACHE_TTL
    · rw [if_pos hfresh] at hfr
      subst hfr
      refine ⟨fun hinv => hinv, fun _ => rfl, ?_, ?_, ?_, ?_⟩
      · intro hmiss
        exact Option.noConfusion hmiss
      · intro hmiss
        exact Option.noConfusion hmiss
      · intro t data hsome _
        injection hsome with hsome
        rw [hsome]
      · intro hmiss
        exact Option.noConfusion hmiss
    · rw [if_neg hfresh] at hfr
      cases hq : queryAttempts storage 0 (MAX_RETRIES + 1) with
      | mk o n =>
        cases o with
        | some rows =>
          rw [hq] at hfr
          replace hfr : fr =
              ⟨rows, ("related:" ++ baseKey K, (now, rows)) :: cache, n⟩ := hfr
          subst hfr
          have hne := queryAttempts_some_ne storage (MAX_RETRIES + 1) 0 rows n hq
          refine ⟨?_, ?_, ?_, ?_, ?_, ?_⟩
          · intro hinv e2 he2
            rcases List.mem_cons.mp he2 with rfl | he3
            · exact hne.1
            · exact hinv e2 he3
          · intro hrows
            exact absurd hrows hne.1
          · intro hmiss
            exact Option.noConfusion hmiss
          · intro hmiss
            exact Option.noConfusion hmiss
          · intro t data hsome httl
            injection hsome with hsome
            rw [hsome] at hfresh
            exact absurd httl hfresh
          · intro hmiss
            exact Option.noConfusion hmiss
        | none =>
          rw [hq] at hfr
          replace hfr : fr = ⟨[], cache, n⟩ := hfr
          subst hfr
          refine ⟨fun hinv => hinv, fun _ => rfl, ?_, ?_, ?_, ?_⟩
          · intro hmiss
            exact Option.noConfusion hmiss
          · intro hmiss
            exact Option.noConfusion hmiss
          · intro t data hsome httl
            injection hsome with hsome
            rw [hsome] at hfresh
            exact absurd httl hfresh
          · intro _ hrows
            exact absurd rfl hrows
  | none =>
    rw [hl] at hfr
    replace hfr : fr =
        (match queryAttempts storage 0 (MAX_RETRIES + 1) with
         | (some rows, n) =>
           (⟨rows, ("related:" ++ baseKey K, (now, rows)) :: cache, n⟩ : FetchResult)
         | (Option.none, n) => ⟨[], cache, n⟩) := hfr
    cases hq : queryAttempts storage 0 (MAX_RETRIES + 1) with
    | mk o n =>
      cases o with
      | some rows =>
        rw [hq] at hfr
        replace hfr : fr =
            ⟨rows, ("related:" ++ baseKey K, (now, rows)) :: cache, n⟩ := hfr
        subst hfr
        have hne := queryAttempts_some_ne storage (MAX_RETRIES + 1) 0 rows n hq
        refine ⟨?_, ?_, ?_, ?_, ?_, ?_⟩
        · intro hinv e2 he2
          rcases List.mem_cons.mp he2 with rfl | he3
          · exact hne.1
          · exact hinv e2 he3
        · intro hrows
          exact absurd hrows hne.1
        · intro _ _
          exact cacheLookup_cons_self _ _ cache
        · intro _
          exact hne.2
        · intro t data hsome _
          exact Option.noConfusion hsome
        · intro _ _ storage2 now2 K2 hbase httl
          have hl2 : cacheLookup (("related:" ++ baseKey K, (now, rows)) :: cache)
              ("related:" ++ baseKey K2) = some (now, rows) := by
            rw [hbase]
            exact cacheLookup_cons_self ("related:" ++ baseKey K) (now, rows) cache
          exact get_related_runs_hit storage2 now2 _ K2 (now, rows) hl2 httl
      | none =>
        rw [hq] at hfr
        replace hfr : fr = ⟨[], cache, n⟩ := hfr
        subst hfr
        have hpos : 1 ≤ n := by
          have := queryAttempts_pos storage 0 MAX_RETRIES
          rw [hq] at this
          exact this
        refine ⟨fun hinv => hinv, fun _ => rfl, ?_, fun _ => hpos, ?_, ?_⟩
        · intro _ hrows
          exact absurd rfl hrows
        · intro t data hsome _
          exact Option.noConfusion hsome
        · intro _ hrows
          exact absurd rfl hrows

/-- Witness for C7: a successful fetch is cached at the current clock, and a
later call within the TTL is served from the cache with zero storage
queries. -/
theorem cache_policy_spec_witness :
    cacheLookup (get_related_runs (fun _ => QueryOutcome.ok [recRoot]) 0 [] "R").cache
      ("related:" ++ baseKey "R") =
      some (0, (get_related_runs (fun _ => QueryOutcome.ok [recRoot]) 0 [] "R").rows) ∧
    get_related_runs (fun _ => QueryOutcome.err) 100
      (get_related_runs (fun _ => QueryOutcome.ok [recRoot]) 0 [] "R").cache "R" =
      ⟨(get_related_runs (fun _ => QueryOutcome.ok [recRoot]) 0 [] "R").rows,
       (get_related_runs (fun _ => QueryOutcome.ok [recRoot]) 0 [] "R").cache, 0⟩ := by
  have h := cache_policy_spec (fun _ => QueryOutcome.ok [recRoot]) 0 [] "R"
    (get_related_runs (fun _ => QueryOutcome.ok [recRoot]) 0 [] "R") rfl
  exact ⟨h.2.2.1 rfl (by decide),
    h.2.2.2.2.2 rfl (by decide) (fun _ => QueryOutcome.err) 100 "R" rfl
      (by norm_num [CACHE_TTL])⟩
